import Mathlib

/-!
Verification of the car-selling inventory manager (`src/app.py`).

The program is a single-table CRUD application over a SQLite table `cars`.
We shallow-embed its data-access layer:

* a row of the `cars` table is a `Car` record;
* the database state is a `DB`: the list of rows plus the AUTOINCREMENT
  counter `nextId` (SQLite assigns ids 1, 2, 3, …);
* timestamps (`added_on`, `TIMESTAMP DEFAULT CURRENT_TIMESTAMP`) are
  modelled as natural numbers, passed explicitly as a `now` argument to the
  operations that consult the clock;
* `REAL` prices are modelled as rationals;
* each repository function (`init_db`, `get_cars`, `add_car`, `update_car`,
  `delete_car`) becomes a pure function on `DB`;
* the search-page filter (`app.py` lines 116-120) uses
  `cars['make'].str.contains(search_make, case=False, na=False)`, which in
  pandas treats `search_make` as a regular expression (default
  `regex=True`) and tests it with a case-insensitive `re.search`.  We embed
  the fragment of that regex language consisting of literal characters and
  the metacharacter `.` (any character except a newline); patterns using
  other regex constructs are outside the model.
-/

/-- A row of the `cars` table (`app.py` lines 12-24).  `description` is the
only nullable column, hence an `Option`. -/
structure Car where
  id : Nat
  make : String
  model : String
  year : Int
  price : Rat
  mileage : Int
  condition : String
  description : Option String
  added_on : Nat
deriving DecidableEq, Repr

/-- The persistent state: the rows of the `cars` table together with the
AUTOINCREMENT counter (the next id SQLite will assign; it starts at 1 and
never decreases, even across deletes). -/
structure DB where
  rows : List Car
  nextId : Nat
deriving DecidableEq, Repr

/-- Well-formedness of a SQLite state for the `cars` table: the
`INTEGER PRIMARY KEY AUTOINCREMENT` column guarantees that ids are distinct
and that every stored id is below the next id to be assigned. -/
def WF (db : DB) : Prop :=
  (db.rows.map Car.id).Nodup ∧ ∀ r ∈ db.rows, r.id < db.nextId

instance : DecidablePred WF := fun db =>
  inferInstanceAs (Decidable (_ ∧ _))

/-- The three sample rows of `init_db` (`app.py` lines 33-37), inserted with
explicit `make, model, year, price, mileage, condition, description`;
`added_on` takes its column default (the current timestamp) and the ids are
assigned by AUTOINCREMENT. -/
def seedCars (startId now : Nat) : List Car :=
  [ { id := startId, make := "Toyota", model := "Camry", year := 2022,
      price := 25000, mileage := 30000, condition := "Excellent",
      description := some "Low mileage, one owner", added_on := now },
    { id := startId + 1, make := "Honda", model := "Civic", year := 2021,
      price := 22000, mileage := 45000, condition := "Good",
      description := some "Reliable and fuel efficient", added_on := now },
    { id := startId + 2, make := "Ford", model := "Mustang", year := 2020,
      price := 35000, mileage := 20000, condition := "Excellent",
      description := some "Sporty and powerful", added_on := now } ]

/-- `init_db` (`app.py` lines 9-43).  `CREATE TABLE IF NOT EXISTS` creates
the table when absent (input `none`, fresh state with AUTOINCREMENT at 1)
and leaves an existing one alone; then `SELECT COUNT(*)` and, only when the
count is zero, the `executemany` INSERT of the three sample rows. -/
def init_db (d : Option DB) (now : Nat) : DB :=
  let db := d.getD { rows := [], nextId := 1 }
  if db.rows.isEmpty then
    { rows := db.rows ++ seedCars db.nextId now, nextId := db.nextId + 3 }
  else
    db

/-- Comparison used by `ORDER BY added_on DESC`: `a` may precede `b`. -/
def addedGe (a b : Car) : Prop := b.added_on ≤ a.added_on

instance : DecidableRel addedGe := fun a b => Nat.decLe _ _

instance : IsTotal Car addedGe := ⟨fun a b => Nat.le_total b.added_on a.added_on⟩

instance : IsTrans Car addedGe := ⟨fun _ _ _ h h2 => Nat.le_trans h2 h⟩

/-- `get_cars` (`app.py` lines 48-53): `SELECT … FROM cars ORDER BY
added_on DESC`.  Modelled as a (stable) sort of the rows by descending
`added_on`; it is total, so it never fails, matching the absence of any
error path in the source. -/
def get_cars (db : DB) : List Car :=
  List.insertionSort addedGe db.rows

/-- The row built by an INSERT that supplies every column except `id`
(AUTOINCREMENT) and `added_on` (default current timestamp). -/
def newCar (mk md : String) (yr : Int) (pr : Rat) (mi : Int)
    (cond : String) (desc : Option String) (idv now : Nat) : Car :=
  { id := idv, make := mk, model := md, year := yr, price := pr,
    mileage := mi, condition := cond, description := desc, added_on := now }

/-- `add_car` (`app.py` lines 55-63): one INSERT supplying all columns but
`id` and `added_on`. -/
def add_car (mk md : String) (yr : Int) (pr : Rat) (mi : Int)
    (cond : String) (desc : Option String) (now : Nat) (db : DB) : DB :=
  { rows := db.rows ++ [newCar mk md yr pr mi cond desc db.nextId now],
    nextId := db.nextId + 1 }

/-- The effect of the SET clause of `update_car` on one row: every column
except `id` and `added_on` is overwritten. -/
def setFields (r : Car) (mk md : String) (yr : Int) (pr : Rat) (mi : Int)
    (cond : String) (desc : Option String) : Car :=
  { r with make := mk, model := md, year := yr, price := pr,
           mileage := mi, condition := cond, description := desc }

/-- `update_car` (`app.py` lines 65-74): `UPDATE cars SET … WHERE id = ?`.
Every row whose id matches is overwritten in place; others are untouched. -/
def update_car (carId : Nat) (mk md : String) (yr : Int) (pr : Rat)
    (mi : Int) (cond : String) (desc : Option String) (db : DB) : DB :=
  { db with
    rows := db.rows.map fun r =>
      if r.id = carId then setFields r mk md yr pr mi cond desc else r }

/-- `delete_car` (`app.py` lines 76-81): `DELETE FROM cars WHERE id = ?`. -/
def delete_car (carId : Nat) (db : DB) : DB :=
  { db with rows := db.rows.filter fun r => r.id != carId }

/-! ## The search filter (`app.py` lines 116-120)

`cars['make'].str.contains(search_make, case=False, na=False)` asks, for
each row, whether the regular expression `search_make` matches somewhere in
`make` (`re.search`), ignoring case.  We embed the regex fragment of
literal characters and `.`. -/

/-- One token of the embedded regex fragment: a literal character, or `.`
(which in Python `re` matches any character except a newline). -/
inductive RTok where
  | lit (c : Char)
  | dot
deriving DecidableEq, Repr

/-- Reading a pattern string in the embedded fragment: `.` is the
any-character metacharacter, every other character a literal.  (Patterns
using other regex metacharacters are outside the model.) -/
def parsePat (s : String) : List RTok :=
  s.data.map fun c => if c = '.' then RTok.dot else RTok.lit c

/-- Whether one token matches one character, under `re.IGNORECASE`. -/
def tokMatch : RTok → Char → Bool
  | RTok.lit c, d => c.toLower == d.toLower
  | RTok.dot, d => d != '\n'

/-- Whether the pattern matches a prefix of the text (`re.match`-style). -/
def matchHere : List RTok → List Char → Bool
  | [], _ => true
  | _ :: _, [] => false
  | t :: ts, c :: cs => tokMatch t c && matchHere ts cs

/-- Whether the pattern matches at some position in the text: the semantics
of `re.search`. -/
def reSearch (pat : List RTok) : List Char → Bool
  | [] => matchHere pat []
  | c :: cs => matchHere pat (c :: cs) || reSearch pat cs

/-- `Series.str.contains(pat, case=False, na=False)` on one `make` value
(never NULL, so `na=False` is inert). -/
def strContains (pat : String) (s : String) : Bool :=
  reSearch (parsePat pat) s.data

/-- The filter of the Search page (`app.py` lines 116-120): keep the rows
whose `make` matches the pattern case-insensitively (or the pattern is the
empty string) and whose price lies in `[min_price, max_price]`.  A pure
function on the in-memory listing sequence. -/
def filtered (cars : List Car) (search_make : String)
    (min_price max_price : Rat) : List Car :=
  cars.filter fun c =>
    (strContains search_make c.make || search_make == "") &&
    (decide (min_price ≤ c.price)) && (decide (c.price ≤ max_price))

/-! ## Spec-side filter

The specification (§4.3) words the make criterion as plain case-insensitive
substring containment.  The following definitions follow the spec's words,
to be compared with `filtered` above. -/

/-- Whether `ns` occurs as a contiguous block inside `hs`. -/
def occursIn (ns : List Char) : List Char → Bool
  | [] => ns.isEmpty
  | c :: cs => ns.isPrefixOf (c :: cs) || occursIn ns cs

/-- Case-insensitive substring containment, the spec's reading of the make
criterion ("contains the substring (case-insensitively)"; the empty
substring matches everything). -/
def specContainsCI (hay sub : String) : Bool :=
  occursIn (sub.data.map Char.toLower) (hay.data.map Char.toLower)

/-- The Filter Predicate as the specification words it (§4.3): the
subsequence of listings whose `make` contains the substring
case-insensitively and whose price is within the inclusive bounds. -/
def filterSpec (cars : List Car) (sub : String)
    (min_price max_price : Rat) : List Car :=
  cars.filter fun c =>
    specContainsCI c.make sub &&
    (decide (min_price ≤ c.price)) && (decide (c.price ≤ max_price))

example : strContains "toy" "Toyota" = true := by decide
example : strContains "t.y" "Toyota" = true := by decide
example : strContains "." "Toyota" = true := by decide
example : specContainsCI "Toyota" "." = false := by decide
example : specContainsCI "Toyota" "TOY" = true := by decide

/-! ## Bridge: literal patterns are substring search

On a pattern free of regex metacharacters, the pandas/`re` search performed
by the code coincides with the spec's case-insensitive substring test. -/

/-- The metacharacters of Python regular expressions.  A pattern avoiding
all of them is a plain literal string. -/
def regexMeta : List Char :=
  ['.', '^', '$', '*', '+', '?', '\x7b', '\x7d', '[', ']', '\\', '|', '(', ')']

lemma parsePat_no_dot (s : String) (h : ∀ c ∈ s.data, c ≠ '.') :
    parsePat s = s.data.map RTok.lit := by
  unfold parsePat
  exact List.map_congr_left fun c hc => by simp [h c hc]

lemma matchHere_lit (ps : List Char) : ∀ cs : List Char,
    matchHere (ps.map RTok.lit) cs
      = (ps.map Char.toLower).isPrefixOf (cs.map Char.toLower) := by
  induction ps with
  | nil => intro cs; cases cs <;> rfl
  | cons p pt ih =>
    intro cs
    cases cs with
    | nil => rfl
    | cons c ct => simp [matchHere, tokMatch, List.isPrefixOf, ih]

lemma reSearch_lit (ps : List Char) : ∀ cs : List Char,
    reSearch (ps.map RTok.lit) cs
      = occursIn (ps.map Char.toLower) (cs.map Char.toLower) := by
  intro cs
  induction cs with
  | nil =>
    rw [reSearch, matchHere_lit]
    cases ps <;> rfl
  | cons c ct ih =>
    rw [reSearch, List.map_cons, occursIn, matchHere_lit, ih, List.map_cons]

lemma occursIn_nil_left (l : List Char) : occursIn [] l = true := by
  cases l <;> simp [occursIn, List.isPrefixOf]

/-- For a pattern with no `.`, the code's make test (regex search, or the
explicit empty-string escape hatch) equals the spec's substring test. -/
lemma contains_eq_spec (pat s : String) (h : ∀ c ∈ pat.data, c ≠ '.') :
    (strContains pat s || pat == "") = specContainsCI s pat := by
  by_cases hp : pat = ""
  · subst hp
    simp [specContainsCI, occursIn_nil_left]
  · have hb : (pat == "") = false := beq_eq_false_iff_ne.mpr hp
    rw [hb, Bool.or_false]
    unfold strContains specContainsCI
    rw [parsePat_no_dot pat h, reSearch_lit]

/-! ## Concrete states used to instantiate the theorems -/

/-- A concrete listing (the Toyota seed row as it would sit in storage). -/
def carA : Car :=
  { id := 1, make := "Toyota", model := "Camry", year := 2022, price := 25000,
    mileage := 30000, condition := "Excellent",
    description := some "Low mileage, one owner", added_on := 10 }

/-- A second concrete listing. -/
def carB : Car :=
  { id := 2, make := "Honda", model := "Civic", year := 2021, price := 22000,
    mileage := 45000, condition := "Good",
    description := some "Reliable and fuel efficient", added_on := 20 }

/-- A concrete two-row database state. -/
def dbAB : DB := { rows := [carA, carB], nextId := 3 }

/-! ## Claims about the Filter Predicate -/

/-- C1 (counterexample): the claim reads the filter's make criterion as
case-insensitive substring containment; but the code hands `search_make` to
pandas `str.contains` as a regular expression.  On the input consisting of
the single listing `carA` (make `"Toyota"`), `make_substring = "."` and
price range `[0, 100000]`, the code keeps the listing (`.` matches any
character of `"Toyota"`) while `"."` is not a substring of `"Toyota"`, so
the claimed output (the substring-based subsequence) differs from the
code's output. -/
theorem C1_counterexample :
    filtered [carA] "." 0 100000 ≠ filterSpec [carA] "." 0 100000 := by
  decide

/-- C1 (amended): for every input sequence of listings, every
`make_substring` containing no regex metacharacter, and every pair
`min_price ≤ max_price`, the Filter Predicate returns exactly the
subsequence of listings whose make contains the substring
case-insensitively and whose price lies in `[min_price, max_price]`, with
the order preserved from the input (the result is a sublist).  It is a pure
function of its arguments, so it has no side effects on the input or on
storage. -/
theorem C1_filter_is_substring_filter (cars : List Car) (sub : String)
    (minp maxp : Rat) (hm : ∀ c ∈ sub.data, c ∉ regexMeta)
    (hle : minp ≤ maxp) :
    filtered cars sub minp maxp = filterSpec cars sub minp maxp ∧
    (filtered cars sub minp maxp).Sublist cars := by
  refine ⟨?_, List.filter_sublist _⟩
  unfold filtered filterSpec
  refine List.filter_congr fun c _ => ?_
  have hdot : ∀ ch ∈ sub.data, ch ≠ '.' := by
    intro ch hc he
    exact hm ch hc (he ▸ (by decide : ('.' : Char) ∈ regexMeta))
  rw [Bool.and_assoc, Bool.and_assoc, contains_eq_spec sub c.make hdot]

/-- C1 (witness): the amended theorem instantiated at the one-listing
sequence `[carA]`, pattern `"toy"` and range `[0, 30000]`. -/
theorem C1_witness :
    (∀ c ∈ "toy".data, c ∉ regexMeta) ∧ ((0 : Rat) ≤ 30000) ∧
    (filtered [carA] "toy" 0 30000 = filterSpec [carA] "toy" 0 30000 ∧
     (filtered [carA] "toy" 0 30000).Sublist [carA]) :=
  ⟨by decide, by decide,
   C1_filter_is_substring_filter [carA] "toy" 0 30000 (by decide) (by decide)⟩

/-- C9: with an empty `make_substring` and a price range covering every
price in the input, the filter returns all input listings, order preserved:
it is the identity on the input sequence. -/
theorem C9_empty_filter_identity (cars : List Car) (minp maxp : Rat)
    (h : ∀ c ∈ cars, minp ≤ c.price ∧ c.price ≤ maxp) :
    filtered cars "" minp maxp = cars := by
  unfold filtered
  rw [List.filter_eq_self]
  intro c hc
  simp [(h c hc).1, (h c hc).2]

/-- C9 (witness): the theorem instantiated at `[carA, carB]` with the full
UI price range `[0, 100000]`. -/
theorem C9_witness :
    (∀ c ∈ [carA, carB], (0 : Rat) ≤ c.price ∧ c.price ≤ 100000) ∧
    filtered [carA, carB] "" 0 100000 = [carA, carB] :=
  ⟨by decide, C9_empty_filter_identity [carA, carB] 0 100000 (by decide)⟩

/-! ## Claims about list_all -/

/-- C2: for every storage state, `list_all()` returns the listings ordered
by `added_on` descending (whenever A appears before B, A.added_on ≥
B.added_on), and it returns the empty sequence when no rows exist.  The
embedding is a total function, reflecting that the query has no failure
path under normal operation. -/
theorem C2_list_all_sorted (db : DB) :
    List.Pairwise (fun a b => b.added_on ≤ a.added_on) (get_cars db) ∧
    (db.rows = [] → get_cars db = []) := by
  constructor
  · exact List.sorted_insertionSort addedGe db.rows
  · intro h
    simp [get_cars, h, List.insertionSort]

/-- C2 (witness): the theorem instantiated at the states `dbAB` and the
empty database. -/
theorem C2_witness :
    List.Pairwise (fun a b => b.added_on ≤ a.added_on) (get_cars dbAB) ∧
    get_cars { rows := [], nextId := 1 } = [] :=
  ⟨(C2_list_all_sorted dbAB).1,
   (C2_list_all_sorted { rows := [], nextId := 1 }).2 rfl⟩

/-! ## Claims about update / delete on a missing id -/

/-- C3: when no stored row has the given id, `update` and `delete` are
silent no-ops — no error is raised (the embedding is total) and the state
is identical before and after, hence the listing set keeps its count and
contents. -/
theorem C3_missing_id_noop (db : DB) (cid : Nat) (mk md : String) (yr : Int)
    (pr : Rat) (mi : Int) (cond : String) (desc : Option String)
    (h : ∀ r ∈ db.rows, r.id ≠ cid) :
    update_car cid mk md yr pr mi cond desc db = db ∧
    delete_car cid db = db := by
  constructor
  · have hrows : (db.rows.map fun r =>
        if r.id = cid then setFields r mk md yr pr mi cond desc else r)
          = db.rows := by
      rw [List.map_congr_left fun r hr => if_neg (h r hr)]
      exact List.map_id' db.rows
    calc update_car cid mk md yr pr mi cond desc db
        = { db with rows := db.rows } := by rw [update_car, hrows]
      _ = db := rfl
  · have hrows : (db.rows.filter fun r => r.id != cid) = db.rows := by
      rw [List.filter_eq_self]
      intro r hr
      simpa using h r hr
    calc delete_car cid db = { db with rows := db.rows } := by
          rw [delete_car, hrows]
      _ = db := rfl

/-- C3 (witness): the theorem instantiated at `dbAB` (ids 1 and 2) and the
absent id 99. -/
theorem C3_witness :
    (∀ r ∈ dbAB.rows, r.id ≠ 99) ∧
    (update_car 99 "a" "b" 0 0 0 "c" none dbAB = dbAB ∧
     delete_car 99 dbAB = dbAB) :=
  ⟨by decide, C3_missing_id_noop dbAB 99 "a" "b" 0 0 0 "c" none (by decide)⟩

/-! ## Claims about the Schema Initializer -/

/-- C4: the Schema Initializer is idempotent — a second call (from any
starting state, at any later time) leaves the state exactly as the first
call left it, so the three seed rows are never duplicated; and it seeds
only when the table is empty at the time of the call: on a nonempty table
it changes nothing.  The embedding is total, so no call errors. -/
theorem C4_init_db_idempotent (d : Option DB) (now now2 : Nat) :
    init_db (some (init_db d now)) now2 = init_db d now ∧
    (∀ db : DB, db.rows ≠ [] → init_db (some db) now2 = db) := by
  have hskip : ∀ (db : DB) (t : Nat), db.rows ≠ [] → init_db (some db) t = db := by
    intro db t hne
    have : db.rows.isEmpty = false := List.isEmpty_eq_false.mpr hne
    simp [init_db, this]
  refine ⟨?_, fun db => hskip db now2⟩
  have hne : (init_db d now).rows ≠ [] := by
    unfold init_db
    rcases hd : (d.getD { rows := [], nextId := 1 }).rows with _ | ⟨c, cs⟩
    · simp [hd, seedCars]
    · simp [hd]
  exact hskip _ now2 hne

/-- C4 (witness): the theorem instantiated at the absent-table state and at
a concrete nonempty state. -/
theorem C4_witness :
    init_db (some (init_db none 5)) 9 = init_db none 5 ∧
    init_db (some dbAB) 9 = dbAB :=
  ⟨(C4_init_db_idempotent none 5 9).1,
   (C4_init_db_idempotent none 5 9).2 dbAB (by decide)⟩

/-- C8 (counterexample): the claim says the seed INSERT overrides neither
`description` nor `added_on`, so both take their storage defaults — for
`description` the default is NULL (`none`).  But the source's INSERT lists
`description` among its columns and supplies an explicit text for each of
the three seed rows: seeding a fresh store yields descriptions that are not
all `none`. -/
theorem C8_counterexample :
    (init_db none 0).rows.map Car.description ≠ [none, none, none] := by
  decide

/-- C8 (amended): when the Schema Initializer seeds an empty table, it
inserts exactly three fixed seed listings, each with an explicitly supplied
description; only `added_on` (and the AUTOINCREMENT id) take their storage
defaults. -/
theorem C8_seed_rows (db : DB) (now : Nat) (h : db.rows = []) :
    (init_db (some db) now).rows =
      [ { id := db.nextId, make := "Toyota", model := "Camry", year := 2022,
          price := 25000, mileage := 30000, condition := "Excellent",
          description := some "Low mileage, one owner", added_on := now },
        { id := db.nextId + 1, make := "Honda", model := "Civic",
          year := 2021, price := 22000, mileage := 45000, condition := "Good",
          description := some "Reliable and fuel efficient",
          added_on := now },
        { id := db.nextId + 2, make := "Ford", model := "Mustang",
          year := 2020, price := 35000, mileage := 20000,
          condition := "Excellent", description := some "Sporty and powerful",
          added_on := now } ] := by
  simp [init_db, h, seedCars]

/-- C8 (witness): the amended theorem instantiated at the fresh empty state
and time 7. -/
theorem C8_witness :
    ({ rows := [], nextId := 1 } : DB).rows = [] ∧
    (init_db (some { rows := [], nextId := 1 }) 7).rows =
      [ { id := 1, make := "Toyota", model := "Camry", year := 2022,
          price := 25000, mileage := 30000, condition := "Excellent",
          description := some "Low mileage, one owner", added_on := 7 },
        { id := 1 + 1, make := "Honda", model := "Civic",
          year := 2021, price := 22000, mileage := 45000, condition := "Good",
          description := some "Reliable and fuel efficient", added_on := 7 },
        { id := 1 + 2, make := "Ford", model := "Mustang",
          year := 2020, price := 35000, mileage := 20000,
          condition := "Excellent", description := some "Sporty and powerful",
          added_on := 7 } ] :=
  ⟨rfl, C8_seed_rows { rows := [], nextId := 1 } 7 rfl⟩

/-! ## Frame property of update / delete -/

/-- C10: `update` and `delete` touch at most the single row matching the
given id: the subsequence of rows whose id differs from the given id is
exactly the same (same rows, same fields, same relative order) before and
after either operation, and `update` additionally preserves the row
count. -/
theorem C10_frame (db : DB) (cid : Nat) (mk md : String) (yr : Int)
    (pr : Rat) (mi : Int) (cond : String) (desc : Option String) :
    ((update_car cid mk md yr pr mi cond desc db).rows.filter
        fun r => r.id != cid) = (db.rows.filter fun r => r.id != cid) ∧
    ((delete_car cid db).rows.filter fun r => r.id != cid)
        = (db.rows.filter fun r => r.id != cid) ∧
    (update_car cid mk md yr pr mi cond desc db).rows.length
        = db.rows.length := by
  refine ⟨?_, ?_, by simp [update_car]⟩
  · show (db.rows.map fun r =>
        if r.id = cid then setFields r mk md yr pr mi cond desc else r).filter
          (fun r => r.id != cid) = db.rows.filter fun r => r.id != cid
    induction db.rows with
    | nil => rfl
    | cons a t ih =>
      by_cases h : a.id = cid
      · simp only [List.map_cons, if_pos h, List.filter_cons]
        have h2 : ((setFields a mk md yr pr mi cond desc).id != cid) = false := by
          simp [setFields, h]
        have h3 : (a.id != cid) = false := by simp [h]
        rw [h2, h3]
        exact ih
      · simp only [List.map_cons, if_neg h, List.filter_cons]
        have h3 : (a.id != cid) = true := by simp [h]
        rw [h3]
        simpa using ih
  · simp [delete_car, List.filter_filter]

/-! ## Helper lemmas for the round-trip claims -/

lemma get_cars_perm (db : DB) : (get_cars db).Perm db.rows :=
  List.perm_insertionSort addedGe db.rows

lemma mem_get_cars {db : DB} {c : Car} : c ∈ get_cars db ↔ c ∈ db.rows :=
  (get_cars_perm db).mem_iff

/-- Removing the rows carrying a present id from an id-duplicate-free list
shrinks it by exactly one element. -/
lemma length_filter_ne (cid : Nat) (r : Car) :
    ∀ l : List Car, (l.map Car.id).Nodup → r ∈ l → r.id = cid →
      (l.filter fun x => x.id != cid).length = l.length - 1 := by
  intro l
  induction l with
  | nil => intro _ hr; cases hr
  | cons a t ih =>
    intro hnd hr hid
    have hnd2 := hnd
    rw [List.map_cons, List.nodup_cons] at hnd2
    rcases List.mem_cons.mp hr with rfl | hrt
    · have hfa : (r.id != cid) = false := by simp [hid]
      have hall : (t.filter fun x => x.id != cid) = t := by
        rw [List.filter_eq_self]
        intro x hx
        have : x.id ≠ r.id := fun he =>
          hnd2.1 (he ▸ List.mem_map.mpr ⟨x, hx, rfl⟩)
        simp [hid ▸ this]
      simp [List.filter_cons, hfa, hall]
    · have hane : a.id ≠ cid := fun he =>
        hnd2.1 (List.mem_map.mpr ⟨r, hrt, (hid.trans he.symm)⟩)
      have hfa : (a.id != cid) = true := by simp [hane]
      have hlen := ih hnd2.2 hrt hid
      have hpos : 0 < t.length := List.length_pos_of_mem hrt
      rw [List.filter_cons, hfa]
      simp only [List.length_cons, if_true]
      omega

/-! ## The update round-trip -/

/-- C5: on a well-formed state containing a row `r` with the given id,
`update` followed by `list_all` shows the listing at that id with exactly
the new field values (`setFields r …` overwrites every column of the SET
clause) and with its `id` and `added_on` unchanged; moreover it is the only
listing at that id in the result. -/
theorem C5_update_roundtrip (db : DB) (cid : Nat) (mk md : String) (yr : Int)
    (pr : Rat) (mi : Int) (cond : String) (desc : Option String) (r : Car)
    (hwf : WF db) (hr : r ∈ db.rows) (hid : r.id = cid) :
    (setFields r mk md yr pr mi cond desc).id = r.id ∧
    (setFields r mk md yr pr mi cond desc).added_on = r.added_on ∧
    setFields r mk md yr pr mi cond desc
      ∈ get_cars (update_car cid mk md yr pr mi cond desc db) ∧
    ∀ s ∈ get_cars (update_car cid mk md yr pr mi cond desc db),
      s.id = cid → s = setFields r mk md yr pr mi cond desc := by
  refine ⟨rfl, rfl, ?_, ?_⟩
  · rw [mem_get_cars]
    exact List.mem_map.mpr ⟨r, hr, by rw [if_pos hid]⟩
  · intro s hs hsid
    rw [mem_get_cars] at hs
    obtain ⟨t, ht, hts⟩ := List.mem_map.mp hs
    by_cases h : t.id = cid
    · rw [if_pos h] at hts
      have hteq : t = r :=
        List.inj_on_of_nodup_map hwf.1 ht hr (by rw [h, hid])
      rw [← hts, hteq]
    · rw [if_neg h] at hts
      subst hts
      exact absurd hsid h

/-- C5 (witness): the theorem instantiated at `dbAB`, updating id 1 (the
row `carA`) to new field values. -/
theorem C5_witness :
    WF dbAB ∧ carA ∈ dbAB.rows ∧ carA.id = 1 ∧
    ((setFields carA "Mazda" "3" 2019 15000 60000 "Fair" none).id = carA.id ∧
     (setFields carA "Mazda" "3" 2019 15000 60000 "Fair" none).added_on
        = carA.added_on ∧
     setFields carA "Mazda" "3" 2019 15000 60000 "Fair" none
        ∈ get_cars (update_car 1 "Mazda" "3" 2019 15000 60000 "Fair" none dbAB) ∧
     ∀ s ∈ get_cars (update_car 1 "Mazda" "3" 2019 15000 60000 "Fair" none dbAB),
        s.id = 1 → s = setFields carA "Mazda" "3" 2019 15000 60000 "Fair" none) :=
  ⟨by decide, by decide, rfl,
   C5_update_roundtrip dbAB 1 "Mazda" "3" 2019 15000 60000 "Fair" none carA
     (by decide) (by decide) rfl⟩

/-! ## The insert round-trip -/

/-- C6: inserting a listing into a well-formed state and then calling
`list_all` yields a result containing the new row — carrying exactly the
inserted field values, the freshly assigned id `db.nextId` and
`added_on = now`, the insertion instant — and containing exactly one row
with that id; the fresh id differs from the id of every pre-existing row,
and the resulting state is again well-formed. -/
theorem C6_insert_roundtrip (db : DB) (mk md : String) (yr : Int) (pr : Rat)
    (mi : Int) (cond : String) (desc : Option String) (now : Nat)
    (hwf : WF db) :
    newCar mk md yr pr mi cond desc db.nextId now
        ∈ get_cars (add_car mk md yr pr mi cond desc now db) ∧
    (get_cars (add_car mk md yr pr mi cond desc now db)).countP
        (fun s => s.id == db.nextId) = 1 ∧
    (∀ r ∈ db.rows, r.id ≠ db.nextId) ∧
    WF (add_car mk md yr pr mi cond desc now db) := by
  have hfresh : ∀ r ∈ db.rows, r.id ≠ db.nextId := fun r hr =>
    Nat.ne_of_lt (hwf.2 r hr)
  refine ⟨?_, ?_, hfresh, ?_, ?_⟩
  · rw [mem_get_cars]
    exact List.mem_append_right _ (List.mem_singleton.mpr rfl)
  · rw [(get_cars_perm _).countP_eq]
    have h0 : db.rows.countP (fun s => s.id == db.nextId) = 0 :=
      List.countP_eq_zero.mpr fun a ha => by simp [hfresh a ha]
    show (db.rows ++ [newCar mk md yr pr mi cond desc db.nextId now]).countP
        (fun s => s.id == db.nextId) = 1
    rw [List.countP_append, h0]
    simp [newCar]
  · show ((db.rows ++ [newCar mk md yr pr mi cond desc db.nextId now]).map
        Car.id).Nodup
    rw [List.map_append]
    rw [List.nodup_append]
    refine ⟨hwf.1, List.nodup_singleton _, ?_⟩
    intro a ha hb
    obtain ⟨r, hr, hra⟩ := List.mem_map.mp ha
    rw [List.map_singleton, List.mem_singleton] at hb
    exact hfresh r hr (hra.trans hb)
  · intro r hr
    show r.id < db.nextId + 1
    rcases List.mem_append.mp hr with h | h
    · exact Nat.lt_succ_of_lt (hwf.2 r h)
    · rw [List.mem_singleton] at h
      subst h
      exact Nat.lt_succ_self _

/-- C6 (witness): the theorem instantiated at `dbAB` and a concrete new
listing inserted at time 30. -/
theorem C6_witness :
    WF dbAB ∧
    (newCar "Mazda" "3" 2019 15000 60000 "Fair" none dbAB.nextId 30
        ∈ get_cars (add_car "Mazda" "3" 2019 15000 60000 "Fair" none 30 dbAB) ∧
     (get_cars (add_car "Mazda" "3" 2019 15000 60000 "Fair" none 30 dbAB)).countP
        (fun s => s.id == dbAB.nextId) = 1 ∧
     (∀ r ∈ dbAB.rows, r.id ≠ dbAB.nextId) ∧
     WF (add_car "Mazda" "3" 2019 15000 60000 "Fair" none 30 dbAB)) :=
  ⟨by decide,
   C6_insert_roundtrip dbAB "Mazda" "3" 2019 15000 60000 "Fair" none 30
     (by decide)⟩

/-! ## The delete round-trip -/

/-- C7: on a well-formed state containing a row with the given id, after
`delete(id)` the result of `list_all` no longer contains that id and the
row count decreases by exactly 1. -/
theorem C7_delete_removes (db : DB) (cid : Nat) (r : Car) (hwf : WF db)
    (hr : r ∈ db.rows) (hid : r.id = cid) :
    (get_cars (delete_car cid db)).length = (get_cars db).length - 1 ∧
    ∀ s ∈ get_cars (delete_car cid db), s.id ≠ cid := by
  constructor
  · have hlen1 : (get_cars (delete_car cid db)).length
        = (db.rows.filter fun x => x.id != cid).length :=
      (get_cars_perm (delete_car cid db)).length_eq
    have hlen2 : (get_cars db).length = db.rows.length :=
      (get_cars_perm db).length_eq
    rw [hlen1, hlen2]
    exact length_filter_ne cid r db.rows hwf.1 hr hid
  · intro s hs
    rw [mem_get_cars] at hs
    have := List.of_mem_filter hs
    simpa using this

/-- C7 (witness): the theorem instantiated at `dbAB`, deleting id 2 (the
row `carB`). -/
theorem C7_witness :
    WF dbAB ∧ carB ∈ dbAB.rows ∧ carB.id = 2 ∧
    ((get_cars (delete_car 2 dbAB)).length = (get_cars dbAB).length - 1 ∧
     ∀ s ∈ get_cars (delete_car 2 dbAB), s.id ≠ 2) :=
  ⟨by decide, by decide, rfl,
   C7_delete_removes dbAB 2 carB (by decide) (by decide) rfl⟩
